import Mathlib

/-!
Verification of the taskmate-cli LLM conversation manager and markdown
context store, shallowly embedded from the Python sources
(`src/llm/base.py`, `src/llm/manager.py`, `src/markdown/context.py`).

Conventions of the embedding:
* Python lists and insertion-ordered dicts become Lean `List`s
  (a dict is an association list with distinct keys, updates in place).
* `datetime.now()` is modelled by an explicit `now : Nat` argument,
  constant within one call.
* Python exceptions become an explicit error type `PyExn`; a method that
  may raise returns `Except PyExn _` (or a pair when the mutated receiver
  survives the raise, as it does for in-place mutation in Python).
* Python's negative-index slicing `l[-k:]` (used by
  `ConversationContext.add_message`) is modelled exactly, including the
  `-0` corner case, by `pySliceFromNeg`.
-/

/-- `MessageRole` from `src/llm/base.py`: roles of conversation messages. -/
inductive MessageRole where
  | system
  | user
  | assistant
deriving DecidableEq, Repr

/-- The string value of a `MessageRole` (it is a `str` enum in the source). -/
def MessageRole.value : MessageRole → String
  | .system => "system"
  | .user => "user"
  | .assistant => "assistant"

/-- `MessageRole(s)` in Python: look a role up by its string value;
`none` models the `ValueError` raised on an unknown value. -/
def MessageRole.ofValue : String → Option MessageRole
  | "system" => some .system
  | "user" => some .user
  | "assistant" => some .assistant
  | _ => none

/-- Message metadata (`Optional[Dict[str, Any]]` in the source), modelled as
an association list of string pairs. -/
abbrev Metadata := List (String × String)

/-- `Message` from `src/llm/base.py`. -/
structure Message where
  role : MessageRole
  content : String
  metadata : Option Metadata := none
deriving DecidableEq, Repr

/-- `LLMProvider` from `src/llm/base.py`. -/
inductive LLMProvider where
  | claude
  | gemini
deriving DecidableEq, Repr

/-- The string value of an `LLMProvider` (a `str` enum in the source). -/
def LLMProvider.value : LLMProvider → String
  | .claude => "claude"
  | .gemini => "gemini"

/-- Rendering of a provider in an f-string (`f"Provider {provider} ..."`). -/
def LLMProvider.fstr : LLMProvider → String
  | .claude => "LLMProvider.CLAUDE"
  | .gemini => "LLMProvider.GEMINI"

/-- `LLMResponse` from `src/llm/base.py` (fields the manager uses). -/
structure LLMResponse where
  content : String
  model : String := ""
  provider : LLMProvider := .claude
deriving DecidableEq, Repr

/-- Python exceptions that matter here: `ValueError` (raised by
`LLMManager.set_default_provider` / `get_provider` and by `MessageRole(...)`),
`ConfigurationError` (declared in `src/config/exceptions.py`), and the
`LLMError` family raised by backend clients (`src/llm/base.py`). -/
inductive PyExn where
  | valueError (msg : String)
  | configurationError (msg : String)
  | llmError (msg : String)
deriving DecidableEq, Repr

/-- Whether an exception is (an instance of) `ConfigurationError` from
`src/config/exceptions.py`. `ValueError` and `LLMError` are not subclasses
of it. -/
def PyExn.isConfigurationError : PyExn → Bool
  | .configurationError _ => true
  | _ => false

/-- Python `l[n:]` for a possibly negative or zero `n = -k`:
`l[-k:]` with `k > 0` keeps the last `k` elements (all of `l` when
`k ≥ len(l)`); `l[-0:] = l[0:]` keeps everything; `l[-k:]` with `k < 0`
is `l[(-k):]`, dropping the first `-k` elements. -/
def pySliceFromNeg (l : List α) (k : Int) : List α :=
  if 0 < k then l.drop (l.length - k.toNat)
  else if k = 0 then l
  else l.drop (-k).toNat

/-- `ConversationContext` from `src/llm/base.py`. `max_history` is a Python
`int`, hence `Int` here (its default is 50). -/
structure ConversationContext where
  messages : List Message
  max_history : Int := 50
  system_prompt : Option String := none
deriving DecidableEq, Repr

/-- `ConversationContext.add_message`: append, then, when the list exceeds
`max_history`, keep all system messages followed by
`other_messages[-(max_history - len(system_messages)):]`. -/
def ConversationContext.add_message (c : ConversationContext) (m : Message) :
    ConversationContext :=
  let msgs := c.messages ++ [m]
  if (msgs.length : Int) > c.max_history then
    let sys := msgs.filter (fun x => x.role == MessageRole.system)
    let other := msgs.filter (fun x => !(x.role == MessageRole.system))
    let recent := pySliceFromNeg other (c.max_history - (sys.length : Int))
    { c with messages := sys ++ recent }
  else
    { c with messages := msgs }

/-- `ConversationContext.get_messages` (returns a copy of the list). -/
def ConversationContext.get_messages (c : ConversationContext) : List Message :=
  c.messages

/-- `ConversationContext.set_system_prompt`: store the prompt, drop every
existing system message, and, when the prompt is non-empty (Python
truthiness), insert a fresh system message at position 0. -/
def ConversationContext.set_system_prompt (c : ConversationContext)
    (prompt : String) : ConversationContext :=
  let others := c.messages.filter (fun x => !(x.role == MessageRole.system))
  { c with
    system_prompt := some prompt
    messages :=
      if prompt ≠ "" then ⟨MessageRole.system, prompt, none⟩ :: others
      else others }

/-- `LLMManager` from `src/llm/manager.py`. `_llms` is a dict from provider
to a backend client object; since the client's behaviour enters only through
its `generate` method, which we pass to `LLMManager.generate` explicitly,
the registry state keeps the dict's keys (insertion-ordered, distinct). -/
structure LLMManager where
  llms : List LLMProvider
  default_provider : Option LLMProvider
  conversation_context : ConversationContext
deriving DecidableEq, Repr

/-- `LLMManager.__init__`: no providers configured, no default, an empty
conversation context with the default `max_history = 50`. -/
def LLMManager.fresh : LLMManager :=
  { llms := [], default_provider := none,
    conversation_context := { messages := [] } }

/-- `LLMManager.add_provider`: store the client under its provider key
(replacing in place), and make it the default if none was set. -/
def LLMManager.add_provider (m : LLMManager) (p : LLMProvider) : LLMManager :=
  { m with
    llms := if m.llms.contains p then m.llms else m.llms ++ [p]
    default_provider :=
      match m.default_provider with
      | none => some p
      | some d => some d }

/-- `LLMManager.set_default_provider`: `ValueError` if the provider is not
configured, otherwise update the default. The (possibly unchanged) manager
is returned alongside the outcome, as the Python object survives the raise. -/
def LLMManager.set_default_provider (m : LLMManager) (p : LLMProvider) :
    Except PyExn Unit × LLMManager :=
  if m.llms.contains p then
    (.ok (), { m with default_provider := some p })
  else
    (.error (.valueError ("Provider " ++ p.fstr ++ " not configured")), m)

/-- `LLMManager.get_provider`, restricted to resolving the provider key
(`provider or self._default_provider`, then the configuration checks);
the claims only depend on which key resolves and which error is raised. -/
def LLMManager.get_provider_id (m : LLMManager)
    (provider : Option LLMProvider) : Except PyExn LLMProvider :=
  match provider.orElse (fun _ => m.default_provider) with
  | none => .error (.valueError "No default provider set")
  | some target =>
      if m.llms.contains target then .ok target
      else .error (.valueError ("Provider " ++ target.fstr ++ " not configured"))

/-- `LLMManager.set_max_history`: assign the context's `max_history` field. -/
def LLMManager.set_max_history (m : LLMManager) (n : Int) : LLMManager :=
  { m with conversation_context :=
      { m.conversation_context with max_history := n } }

/-- `LLMManager.generate` from `src/llm/manager.py`. `backend` stands for
`llm.generate` of the resolved client; a `.error` models the client raising.
The second component is the manager state when the call returns or raises
(Python mutates `self._conversation_context` in place, so the state at the
moment of a raise is what the caller observes afterwards). -/
def LLMManager.generate (m : LLMManager) (content : String)
    (provider : Option LLMProvider) (add_to_history : Bool)
    (backend : LLMProvider → List Message → Except PyExn LLMResponse) :
    Except PyExn LLMResponse × LLMManager :=
  match m.get_provider_id provider with
  | .error e => (.error e, m)
  | .ok llm =>
    let m1 :=
      if add_to_history then
        { m with conversation_context :=
            m.conversation_context.add_message ⟨MessageRole.user, content, none⟩ }
      else m
    let messages := m1.conversation_context.get_messages
    let messages :=
      if add_to_history then messages
      else messages ++ [⟨MessageRole.user, content, none⟩]
    match backend llm messages with
    | .error e => (.error e, m1)
    | .ok response =>
      let m2 :=
        if add_to_history then
          { m1 with conversation_context :=
              (m1.conversation_context.add_message
                ⟨MessageRole.assistant, response.content, none⟩) }
        else m1
      (.ok response, m2)

/-- One entry of `LLMManager.export_conversation`'s output:
`{"role": msg.role.value, "content": msg.content, "metadata": msg.metadata}`. -/
structure ExportedMessage where
  role : String
  content : String
  metadata : Option Metadata
deriving DecidableEq, Repr

/-- `LLMManager.export_conversation`. -/
def LLMManager.export_conversation (m : LLMManager) : List ExportedMessage :=
  m.conversation_context.get_messages.map
    (fun msg => ⟨msg.role.value, msg.content, msg.metadata⟩)

/-- One step of `LLMManager.import_conversation`'s loop: decode the role
(`MessageRole(msg_data["role"])`, a `ValueError` on an unknown string),
rebuild the `Message`, and hand it to `add_message`. -/
def importStep (c : ConversationContext) (em : ExportedMessage) :
    Except PyExn ConversationContext :=
  match MessageRole.ofValue em.role with
  | some r =>
      pure (c.add_message { role := r, content := em.content,
                            metadata := em.metadata })
  | none =>
      throw (.valueError (em.role ++ " is not a valid MessageRole"))

/-- `LLMManager.import_conversation`: reset the message list, then re-add
each entry through `add_message`. -/
def LLMManager.import_conversation (m : LLMManager)
    (msgs : List ExportedMessage) : Except PyExn LLMManager := do
  let c ← msgs.foldlM importStep { m.conversation_context with messages := [] }
  return { m with conversation_context := c }

/-! ### The markdown context store (`src/markdown/context.py`) -/

/-- The data `ContextManager.add_file` draws from the markdown parsing
collaborator for one file: `document.metadata.title`, `document.raw_content`,
`extract_context_summary`, `extract_key_points`, `document.metadata.tags`,
and the `word_count` / section count that `get_context_stats` re-derives.
A parse oracle `String → Option ParsedDoc` stands for `parser.parse_file`,
with `none` modelling the exception on an unreadable file. -/
structure ParsedDoc where
  title : Option String
  raw_content : String
  summary : String
  key_points : List String
  tags : List String
  word_count : Nat
  num_sections : Nat
deriving DecidableEq, Repr

/-- `PurePosixPath.name`: the final path component. -/
def pathName (p : String) : String :=
  match (p.splitOn "/").getLast? with
  | some s => s
  | none => p

/-- `PurePosixPath.stem`: the final component minus its last suffix. -/
def pathStem (p : String) : String :=
  let n := pathName p
  let parts := n.splitOn "."
  match parts with
  | [] => n
  | [_] => n
  | _ =>
    if n.startsWith "." && parts.length == 2 then n
    else String.intercalate "." parts.dropLast

/-- Python `a or b` on an optional string (`document.metadata.title or
file_path.stem`): the left value when it is present and truthy (non-empty). -/
def pyOrStr (a : Option String) (b : String) : String :=
  match a with
  | some s => if s = "" then b else s
  | none => b

/-- `ContextItem` from `src/markdown/context.py`; timestamps are `Nat`s. -/
structure ContextItem where
  file_path : String
  title : String
  content : String
  summary : String
  key_points : List String
  tags : List String
  added_at : Nat
  last_accessed : Nat
  access_count : Nat := 0
deriving DecidableEq, Repr

/-- `d[k] = v` on an insertion-ordered dict as an association list: replace
in place when the key exists, else append. -/
def dictInsert (l : List (String × ContextItem)) (k : String)
    (v : ContextItem) : List (String × ContextItem) :=
  if l.any (fun kv => kv.1 == k) then
    l.map (fun kv => if kv.1 == k then (k, v) else kv)
  else l ++ [(k, v)]

/-- `s.add(x)` on a set modelled as a duplicate-free list. -/
def setAdd (l : List String) (x : String) : List String :=
  if l.contains x then l else l ++ [x]

/-- Insert into an ascending list, keeping `x` after every element with a
strictly smaller key and before the first element with a key `≥` its own:
exactly the placement a stable ascending sort gives a latest element. -/
def stableInsert (key : α → Nat) (x : α) : List α → List α
  | [] => [x]
  | y :: ys =>
    if key y < key x then y :: stableInsert key x ys else x :: y :: ys

/-- Stable ascending sort by a `Nat` key: Python's `sorted(l, key=key)`,
ties keeping their original relative order. -/
def stableSortBy (key : α → Nat) : List α → List α
  | [] => []
  | x :: xs => stableInsert key x (stableSortBy key xs)

/-- Insert into a descending list, keeping `x` after every element with a
strictly larger key: stable-descending placement for a latest element. -/
def stableInsertDesc (key : α → Nat) (x : α) : List α → List α
  | [] => [x]
  | y :: ys =>
    if key x < key y then y :: stableInsertDesc key x ys else x :: y :: ys

/-- Stable descending sort by a `Nat` key: Python's
`sorted(l, key=key, reverse=True)`, ties keeping their original order. -/
def stableSortDescBy (key : α → Nat) : List α → List α
  | [] => []
  | x :: xs => stableInsertDesc key x (stableSortDescBy key xs)

/-- The first element of a list attaining the minimal key, if any: the
element a stable ascending sort puts first. -/
def firstMinBy (key : α → Nat) : List α → Option α
  | [] => none
  | x :: xs =>
    match firstMinBy key xs with
    | none => some x
    | some m => if key x ≤ key m then some x else some m

/-- Python `max(l, key=key)` restricted to nonempty lists: the first element
attaining the maximal key. -/
def pyMaxBy (key : α → Nat) (x : α) (xs : List α) : α :=
  xs.foldl (fun best y => if key best < key y then y else best) x

/-- `ContextManager` state from `src/markdown/context.py`: the bound, the
insertion-ordered dict of items, and the `active_files` path set. -/
structure ContextManager where
  max_context_items : Nat := 10
  context_items : List (String × ContextItem) := []
  active_files : List String := []
deriving DecidableEq, Repr

/-- `ContextManager._manage_context_size`: while the dict exceeds the bound,
delete the entries with the smallest `last_accessed`, ties resolved by the
stability of `sorted` (dict = insertion order). -/
def ContextManager.manage_context_size (cm : ContextManager) :
    ContextManager :=
  if cm.context_items.length ≤ cm.max_context_items then cm
  else
    let sorted := stableSortBy (fun kv => kv.2.last_accessed) cm.context_items
    let items_to_remove := cm.context_items.length - cm.max_context_items
    let removed := (sorted.take items_to_remove).map (fun kv => kv.1)
    { cm with
      context_items :=
        cm.context_items.filter (fun kv => !(removed.contains kv.1))
      active_files :=
        cm.active_files.filter (fun p => !(removed.contains p)) }

/-- The `ContextItem` that `ContextManager.add_file` builds for a freshly
parsed file: `added_at = last_accessed = now`, `access_count = 0`, and the
title falls back to the path's stem when the parsed title is absent/empty. -/
def freshContextItem (doc : ParsedDoc) (file_path : String) (now : Nat) :
    ContextItem :=
  { file_path := file_path
    title := pyOrStr doc.title (pathStem file_path)
    content := doc.raw_content
    summary := doc.summary
    key_points := doc.key_points
    tags := doc.tags
    added_at := now
    last_accessed := now
    access_count := 0 }

/-- `ContextManager.add_file`: parse (failure returns `false`, store
untouched), insert the fresh item under the path key, record the path as
active, then run eviction. -/
def ContextManager.add_file (cm : ContextManager)
    (parse : String → Option ParsedDoc) (file_path : String) (now : Nat) :
    Bool × ContextManager :=
  match parse file_path with
  | none => (false, cm)
  | some doc =>
    let cm1 :=
      { cm with
        context_items :=
          dictInsert cm.context_items file_path (freshContextItem doc file_path now)
        active_files := setAdd cm.active_files file_path }
    (true, cm1.manage_context_size)

/-- The lines `get_context_for_ai` emits for one item's key points:
header, at most 5 bullets, and a blank line — nothing when the item has
no key points. -/
def keyPointsSection (item : ContextItem) : List String :=
  if item.key_points.isEmpty then []
  else "Key Points:" ::
    ((item.key_points.take 5).map (fun p => "• " ++ p) ++ [""])

/-- The lines `get_context_for_ai` emits for one item's tags. -/
def tagsSection (item : ContextItem) : List String :=
  if item.tags.isEmpty then []
  else ["Tags: " ++ String.intercalate ", " item.tags, ""]

/-- All lines `get_context_for_ai` emits for one item. -/
def itemContextParts (item : ContextItem) : List String :=
  ["File: " ++ pathName item.file_path,
   "Title: " ++ item.title,
   "",
   "Summary:",
   item.summary,
   ""]
  ++ keyPointsSection item
  ++ tagsSection item
  ++ ["---", ""]

/-- The digest string for an ordered list of items. -/
def renderDigest (items : List ContextItem) : String :=
  String.intercalate "\n"
    (["=== CONTEXT FROM MARKDOWN FILES ===", ""]
      ++ (items.map itemContextParts).flatten
      ++ ["=== END CONTEXT ==="])

/-- `ContextManager.get_context_for_ai`: empty store gives `""` and no
change; otherwise the digest walks the items most-recently-accessed first
(stable on ties), and every item — the iteration covers all of them — gets
`last_accessed = now` and `access_count += 1`. The source interleaves these
updates with the rendering; the rendered fields (`file_path`, `title`,
`summary`, `key_points`, `tags`) are not the updated ones, so digest and
update are stated apart. -/
def ContextManager.get_context_for_ai (cm : ContextManager) (now : Nat) :
    String × ContextManager :=
  if cm.context_items.isEmpty then ("", cm)
  else
    let sortedVals :=
      (stableSortDescBy (fun kv => kv.2.last_accessed) cm.context_items).map
        (fun kv => kv.2)
    let newItems :=
      cm.context_items.map (fun kv =>
        (kv.1, { kv.2 with last_accessed := now,
                           access_count := kv.2.access_count + 1 }))
    (renderDigest sortedVals, { cm with context_items := newItems })

/-- The dictionary `ContextManager.get_context_stats` returns. The
`most_accessed` / `recently_added` sub-dicts become optional pairs:
`(file name, access_count)` and `(file name, added_at)`. -/
structure ContextStats where
  total_files : Nat
  total_words : Nat
  total_sections : Nat
  most_accessed : Option (String × Nat)
  recently_added : Option (String × Nat)
deriving DecidableEq, Repr

/-- `ContextManager.get_context_stats`: zeros and `None`s on an empty store;
otherwise totals re-derived through the parse oracle (files failing to parse
skipped) and Python `max(..., key=...)` for the two highlighted items. The
source mutates nothing. -/
def ContextManager.get_context_stats (cm : ContextManager)
    (parse : String → Option ParsedDoc) : ContextStats :=
  match cm.context_items with
  | [] =>
    { total_files := 0, total_words := 0, total_sections := 0,
      most_accessed := none, recently_added := none }
  | kv :: kvs =>
    let totals := (kv :: kvs).foldl (fun acc entry =>
      match parse entry.2.file_path with
      | some d => (acc.1 + d.word_count, acc.2 + d.num_sections)
      | none => acc) ((0 : Nat), (0 : Nat))
    let most := pyMaxBy (fun i => i.access_count) kv.2 (kvs.map (fun e => e.2))
    let recent := pyMaxBy (fun i => i.added_at) kv.2 (kvs.map (fun e => e.2))
    { total_files := (kv :: kvs).length
      total_words := totals.1
      total_sections := totals.2
      most_accessed := some (pathName most.file_path, most.access_count)
      recently_added := some (pathName recent.file_path, recent.added_at) }

/-! ### Invariants used by the theorems -/

/-- Every message in the list has a non-`SYSTEM` role. -/
def allNonSystem (l : List Message) : Prop :=
  ∀ m ∈ l, m.role ≠ MessageRole.system

/-- The conversation-history invariant `add_message` maintains for
`max_history = N`: either no message is a system message, and the length
stays within `N` whenever `N ≥ 1`; or the list starts with a system message
followed by non-system messages, and the length stays within `N` whenever
`N ≥ 2`. (With a pinned system prompt and `N = 1` the Python slice
`other_messages[-0:]` keeps everything, so no bound holds there.) -/
def HistInv (N : Int) (c : ConversationContext) : Prop :=
  c.max_history = N ∧
  ((allNonSystem c.messages ∧ (1 ≤ N → (c.messages.length : Int) ≤ N)) ∨
   (c.messages.head?.map Message.role = some MessageRole.system ∧
    allNonSystem c.messages.tail ∧
    (2 ≤ N → (c.messages.length : Int) ≤ N)))

instance (N : Int) (c : ConversationContext) : Decidable (HistInv N c) := by
  unfold HistInv allNonSystem
  infer_instance

/-- A manager whose conversation holds 51 messages (reachable after
`set_max_history(51)` and 51 user turns); exporting it yields 51 entries,
one more than a fresh context's default `max_history` of 50. -/
def bigManager : LLMManager :=
  { llms := [], default_provider := none,
    conversation_context :=
      { messages := List.replicate 51 ⟨MessageRole.user, "a", none⟩,
        max_history := 51, system_prompt := none } }

/-- A parsed document used by concrete test inputs. -/
def docW : ParsedDoc :=
  ⟨some "T", "raw", "sum", ["k1"], ["t"], 3, 1⟩

/-- A parse oracle recognising only `b.md`. -/
def parseW : String → Option ParsedDoc :=
  fun s => if s = "b.md" then some docW else none

/-- A one-slot store holding one item, exercising the eviction path. -/
def cmW : ContextManager :=
  { max_context_items := 1
    context_items := [("a.md", ⟨"a.md", "A", "c", "s", [], [], 1, 1, 0⟩)]
    active_files := ["a.md"] }

/-! ### Helper lemmas -/

theorem pySliceFromNeg_eq_drop (l : List α) (k : Int) :
    ∃ j, pySliceFromNeg l k = l.drop j := by
  unfold pySliceFromNeg
  by_cases h1 : 0 < k
  · exact ⟨l.length - k.toNat, by rw [if_pos h1]⟩
  · by_cases h2 : k = 0
    · refine ⟨0, ?_⟩
      rw [if_neg h1, if_pos h2, List.drop_zero]
    · exact ⟨(-k).toNat, by rw [if_neg h1, if_neg h2]⟩

theorem mem_pySliceFromNeg (l : List α) (k : Int) (a : α)
    (h : a ∈ pySliceFromNeg l k) : a ∈ l := by
  obtain ⟨j, hj⟩ := pySliceFromNeg_eq_drop l k
  rw [hj] at h
  exact List.drop_subset _ _ h

theorem add_message_no_trim (c : ConversationContext) (m : Message)
    (h : ((c.messages.length : Int) + 1) ≤ c.max_history) :
    (c.add_message m).messages = c.messages ++ [m] := by
  unfold ConversationContext.add_message
  have hle : ¬ (c.max_history < (c.messages.length : Int) + 1) := by omega
  simp [hle]

theorem add_message_trim (c : ConversationContext) (m : Message)
    (h : c.max_history < (c.messages.length : Int) + 1) :
    (c.add_message m).messages
      = (c.messages ++ [m]).filter (fun x => x.role == MessageRole.system)
        ++ pySliceFromNeg
             ((c.messages ++ [m]).filter
               (fun x => !(x.role == MessageRole.system)))
             (c.max_history -
               (((c.messages ++ [m]).filter
                   (fun x => x.role == MessageRole.system)).length : Int)) := by
  unfold ConversationContext.add_message
  simp [h]

theorem add_message_filter_system (c : ConversationContext) (m : Message)
    (hm : m.role ≠ MessageRole.system) :
    (c.add_message m).messages.filter (fun x => x.role == MessageRole.system)
      = c.messages.filter (fun x => x.role == MessageRole.system) := by
  have hm' : (m.role == MessageRole.system) = false := by
    simpa using hm
  by_cases h : c.max_history < (c.messages.length : Int) + 1
  · rw [add_message_trim c m h, List.filter_append]
    have hsys : (((c.messages ++ [m]).filter
          (fun x => x.role == MessageRole.system)).filter
          (fun x => x.role == MessageRole.system))
        = (c.messages ++ [m]).filter (fun x => x.role == MessageRole.system) := by
      rw [List.filter_filter]
      simp
    have hrec : ((pySliceFromNeg
          ((c.messages ++ [m]).filter (fun x => !(x.role == MessageRole.system)))
          (c.max_history -
            (((c.messages ++ [m]).filter
                (fun x => x.role == MessageRole.system)).length : Int))).filter
          (fun x => x.role == MessageRole.system)) = [] := by
      rw [List.filter_eq_nil_iff]
      intro a ha
      have ha2 := mem_pySliceFromNeg _ _ _ ha
      have ha3 := List.of_mem_filter ha2
      simpa using ha3
    rw [hsys, hrec, List.append_nil, List.filter_append]
    simp [hm']
  · rw [add_message_no_trim c m (by omega), List.filter_append]
    simp [hm']

theorem foldl_add_message_filter_system (c : ConversationContext)
    (ms : List Message) (hms : ∀ m ∈ ms, m.role ≠ MessageRole.system) :
    (ms.foldl ConversationContext.add_message c).messages.filter
        (fun x => x.role == MessageRole.system)
      = c.messages.filter (fun x => x.role == MessageRole.system) := by
  induction ms generalizing c with
  | nil => rfl
  | cons m ms ih =>
    rw [List.foldl_cons, ih _ (fun x hx => hms x (List.mem_cons_of_mem m hx)),
      add_message_filter_system c m (hms m (List.mem_cons_self m ms))]

theorem set_system_prompt_filter_system (c : ConversationContext)
    (p : String) :
    (c.set_system_prompt p).messages.filter
        (fun x => x.role == MessageRole.system)
      = if p = "" then [] else [⟨MessageRole.system, p, none⟩] := by
  unfold ConversationContext.set_system_prompt
  have hothers : (c.messages.filter
        (fun x => !(x.role == MessageRole.system))).filter
        (fun x => x.role == MessageRole.system) = [] := by
    rw [List.filter_eq_nil_iff]
    intro a ha
    have := List.of_mem_filter ha
    simpa using this
  by_cases hp : p = ""
  · simp [hp, hothers]
  · simp [hp, List.filter_cons, hothers]

theorem histInv_add_message (N : Int) (c : ConversationContext) (m : Message)
    (hm : m.role ≠ MessageRole.system) (h : HistInv N c) :
    HistInv N (c.add_message m) := by
  obtain ⟨hmax, hcase⟩ := h
  have hmax' : (c.add_message m).max_history = N := by
    simp only [ConversationContext.add_message]
    split <;> exact hmax
  refine ⟨hmax', ?_⟩
  by_cases htrim : c.max_history < (c.messages.length : Int) + 1
  · -- truncation branch
    have hmsg := add_message_trim c m htrim
    rw [hmax] at htrim hmsg
    rcases hcase with ⟨hall, _⟩ | ⟨hhead, htail, _⟩
    · -- no system message anywhere
      have hsysnil : (c.messages ++ [m]).filter
          (fun x => x.role == MessageRole.system) = [] := by
        rw [List.filter_eq_nil_iff]
        intro a ha
        rcases List.mem_append.mp ha with ha | ha
        · simpa using hall a ha
        · simp only [List.mem_singleton] at ha
          subst ha
          simpa using hm
      have hothall : (c.messages ++ [m]).filter
          (fun x => !(x.role == MessageRole.system)) = c.messages ++ [m] := by
        rw [List.filter_eq_self]
        intro a ha
        rcases List.mem_append.mp ha with ha | ha
        · simpa using hall a ha
        · simp only [List.mem_singleton] at ha
          subst ha
          simpa using hm
      left
      rw [hmsg, hsysnil, hothall]
      simp only [List.nil_append, List.length_nil, Nat.cast_zero, sub_zero]
      constructor
      · intro x hx
        rcases List.mem_append.mp (mem_pySliceFromNeg _ _ _ hx) with hx2 | hx2
        · exact hall x hx2
        · simp only [List.mem_singleton] at hx2
          subst hx2
          exact hm
      · intro h1
        unfold pySliceFromNeg
        rw [if_pos (by omega : (0:Int) < N), List.length_drop,
          List.length_append]
        simp only [List.length_cons, List.length_nil]
        omega
    · -- pinned: a system head followed by non-system messages
      cases hcm : c.messages with
      | nil =>
        rw [hcm] at hhead
        simp at hhead
      | cons s t =>
        rw [hcm] at hhead htail htrim hmsg
        have hs : s.role = MessageRole.system := by
          simpa using hhead
        simp only [List.tail_cons] at htail
        have htm : ∀ x ∈ t ++ [m], x.role ≠ MessageRole.system := by
          intro x hx
          rcases List.mem_append.mp hx with hx | hx
          · exact htail x hx
          · simp only [List.mem_singleton] at hx
            subst hx
            exact hm
        have hsys : ((s :: t) ++ [m]).filter
            (fun x => x.role == MessageRole.system) = [s] := by
          rw [List.cons_append, List.filter_cons]
          rw [if_pos (by simp [hs])]
          have hnil : (t ++ [m]).filter
              (fun x => x.role == MessageRole.system) = [] := by
            rw [List.filter_eq_nil_iff]
            intro a ha
            simpa using htm a ha
          rw [hnil]
        have hoth : ((s :: t) ++ [m]).filter
            (fun x => !(x.role == MessageRole.system)) = t ++ [m] := by
          rw [List.cons_append, List.filter_cons]
          rw [if_neg (by simp [hs])]
          rw [List.filter_eq_self]
          intro a ha
          simpa using htm a ha
        right
        rw [hmsg, hsys, hoth]
        simp only [List.singleton_append, List.length_cons, List.length_nil,
          Nat.cast_one, zero_add, List.head?_cons, List.tail_cons]
        refine ⟨by simp [hs], ?_, ?_⟩
        · intro x hx
          exact htm x (mem_pySliceFromNeg _ _ _ hx)
        · intro h2
          push_cast
          unfold pySliceFromNeg
          rw [if_pos (by omega : (0:Int) < N - 1), List.length_drop,
            List.length_append]
          simp only [List.length_cons, List.length_nil] at htrim ⊢
          omega
  · -- no truncation: the message is appended as-is
    have hmsg := add_message_no_trim c m (by omega)
    rw [hmax] at htrim
    rcases hcase with ⟨hall, _⟩ | ⟨hhead, htail, _⟩
    · left
      constructor
      · intro x hx
        rw [hmsg] at hx
        rcases List.mem_append.mp hx with hx | hx
        · exact hall x hx
        · simp only [List.mem_singleton] at hx
          subst hx
          exact hm
      · intro _
        rw [hmsg, List.length_append]
        simp only [List.length_cons, List.length_nil]
        push_cast
        omega
    · right
      cases hcm : c.messages with
      | nil =>
        rw [hcm] at hhead
        simp at hhead
      | cons s t =>
        rw [hcm] at hhead htail htrim hmsg
        simp only [List.tail_cons] at htail
        refine ⟨?_, ?_, ?_⟩
        · rw [hmsg]
          simpa using hhead
        · rw [hmsg]
          simp only [List.cons_append, List.tail_cons]
          intro x hx
          rcases List.mem_append.mp hx with hx | hx
          · exact htail x hx
          · simp only [List.mem_singleton] at hx
            subst hx
            exact hm
        · intro _
          rw [hmsg, List.length_append]
          simp only [List.length_cons, List.length_nil] at htrim ⊢
          push_cast at htrim ⊢
          omega

theorem firstMinBy_eq_none_iff (key : α → Nat) (l : List α) :
    firstMinBy key l = none ↔ l = [] := by
  cases l with
  | nil => simp [firstMinBy]
  | cons x xs =>
    simp only [firstMinBy]
    cases firstMinBy key xs with
    | none => simp
    | some m =>
      by_cases h : key x ≤ key m <;> simp [h]

theorem firstMinBy_mem (key : α → Nat) (l : List α) (v : α)
    (h : firstMinBy key l = some v) : v ∈ l := by
  induction l with
  | nil => simp [firstMinBy] at h
  | cons x xs ih =>
    cases hf : firstMinBy key xs with
    | none =>
      simp only [firstMinBy, hf, Option.some.injEq] at h
      subst h
      exact List.mem_cons_self x xs
    | some m =>
      simp only [firstMinBy, hf] at h
      by_cases hle : key x ≤ key m
      · rw [if_pos hle] at h
        simp only [Option.some.injEq] at h
        subst h
        exact List.mem_cons_self x xs
      · rw [if_neg hle] at h
        simp only [Option.some.injEq] at h
        subst h
        exact List.mem_cons_of_mem x (ih hf)

theorem stableSortBy_length (key : α → Nat) (l : List α) :
    (stableSortBy key l).length = l.length := by
  have hins : ∀ (x : α) (s : List α),
      (stableInsert key x s).length = s.length + 1 := by
    intro x s
    induction s with
    | nil => rfl
    | cons y ys ih =>
      simp only [stableInsert]
      by_cases h : key y < key x
      · simp [h, ih]
      · simp [h]
  induction l with
  | nil => rfl
  | cons x xs ih =>
    simp only [stableSortBy]
    rw [hins, ih]
    rfl

theorem stableSortBy_head? (key : α → Nat) (l : List α) :
    (stableSortBy key l).head? = firstMinBy key l := by
  induction l with
  | nil => rfl
  | cons x xs ih =>
    cases hs : stableSortBy key xs with
    | nil =>
      have hxs : firstMinBy key xs = none := by
        rw [← ih, hs]
        rfl
      simp only [stableSortBy, firstMinBy, hs, hxs, stableInsert]
      rfl
    | cons y ys =>
      have hf : firstMinBy key xs = some y := by
        rw [← ih, hs]
        rfl
      simp only [stableSortBy, firstMinBy, hs, hf, stableInsert]
      by_cases hlt : key y < key x
      · rw [if_pos hlt, if_neg (by omega : ¬ key x ≤ key y)]
        rfl
      · rw [if_neg hlt, if_pos (by omega : key x ≤ key y)]
        rfl

theorem filter_ne_key_length (l : List (String × ContextItem))
    (v : String × ContextItem)
    (hnd : (l.map Prod.fst).Nodup) (hv : v ∈ l) :
    (l.filter (fun kv => !(kv.1 == v.1))).length + 1 = l.length := by
  induction l with
  | nil => simp at hv
  | cons h t ih =>
    rw [List.map_cons, List.nodup_cons] at hnd
    obtain ⟨hnotin, hnd2⟩ := hnd
    by_cases hk : h.1 = v.1
    · have ht : t.filter (fun kv => !(kv.1 == v.1)) = t := by
        rw [List.filter_eq_self]
        intro kv hkv
        have hne : kv.1 ≠ v.1 := by
          intro he
          have hmem : kv.1 ∈ t.map Prod.fst := List.mem_map_of_mem Prod.fst hkv
          rw [he, ← hk] at hmem
          exact hnotin hmem
        simpa using hne
      rw [List.filter_cons_of_neg (by simp [hk]), ht, List.length_cons]
    · have hv2 : v ∈ t := by
        rcases List.mem_cons.mp hv with hv | hv
        · subst hv
          exact absurd rfl hk
        · exact hv
      have hih := ih hnd2 hv2
      rw [List.filter_cons_of_pos (by simpa using hk)]
      simp only [List.length_cons]
      omega

theorem stableInsertDesc_perm (key : α → Nat) (x : α) (l : List α) :
    (stableInsertDesc key x l).Perm (x :: l) := by
  induction l with
  | nil => exact List.Perm.refl _
  | cons y ys ih =>
    simp only [stableInsertDesc]
    by_cases h : key x < key y
    · rw [if_pos h]
      exact (List.Perm.cons y ih).trans (List.Perm.swap x y ys)
    · rw [if_neg h]

theorem stableSortDescBy_perm (key : α → Nat) (l : List α) :
    (stableSortDescBy key l).Perm l := by
  induction l with
  | nil => exact List.Perm.refl _
  | cons x xs ih =>
    simp only [stableSortDescBy]
    exact (stableInsertDesc_perm key x (stableSortDescBy key xs)).trans
      (List.Perm.cons x ih)

theorem stableInsertDesc_pairwise (key : α → Nat) (x : α) (l : List α)
    (h : l.Pairwise (fun a b => key b ≤ key a)) :
    (stableInsertDesc key x l).Pairwise (fun a b => key b ≤ key a) := by
  induction l with
  | nil => simp [stableInsertDesc]
  | cons y ys ih =>
    rw [List.pairwise_cons] at h
    obtain ⟨hy, hys⟩ := h
    simp only [stableInsertDesc]
    by_cases hlt : key x < key y
    · rw [if_pos hlt, List.pairwise_cons]
      refine ⟨?_, ih hys⟩
      intro a ha
      rcases List.mem_cons.mp
          ((stableInsertDesc_perm key x ys).mem_iff.mp ha) with ha2 | ha2
      · subst ha2
        omega
      · exact hy a ha2
    · rw [if_neg hlt, List.pairwise_cons]
      refine ⟨?_, List.Pairwise.cons hy hys⟩
      intro a ha
      rcases List.mem_cons.mp ha with ha | ha
      · subst ha
        omega
      · have := hy a ha
        omega

theorem stableSortDescBy_pairwise (key : α → Nat) (l : List α) :
    (stableSortDescBy key l).Pairwise (fun a b => key b ≤ key a) := by
  induction l with
  | nil => simp [stableSortDescBy]
  | cons x xs ih =>
    simp only [stableSortDescBy]
    exact stableInsertDesc_pairwise key x _ ih

theorem conversationContext_eq (c d : ConversationContext)
    (h1 : c.messages = d.messages) (h2 : c.max_history = d.max_history)
    (h3 : c.system_prompt = d.system_prompt) : c = d := by
  cases c
  cases d
  simp_all

theorem add_message_frame (c : ConversationContext) (m : Message) :
    (c.add_message m).max_history = c.max_history ∧
    (c.add_message m).system_prompt = c.system_prompt := by
  simp only [ConversationContext.add_message]
  split <;> exact ⟨rfl, rfl⟩

theorem foldl_add_message_no_trim (c : ConversationContext)
    (ms : List Message)
    (h : ((c.messages.length : Int) + (ms.length : Int)) ≤ c.max_history) :
    ms.foldl ConversationContext.add_message c
      = { c with messages := c.messages ++ ms } := by
  induction ms generalizing c with
  | nil => simp
  | cons m ms ih =>
    rw [List.foldl_cons]
    have h1 : ((c.messages.length : Int) + 1) ≤ c.max_history := by
      simp only [List.length_cons] at h
      push_cast at h
      omega
    have hadd : c.add_message m = { c with messages := c.messages ++ [m] } := by
      exact conversationContext_eq _ _ (add_message_no_trim c m h1)
        (add_message_frame c m).1 (add_message_frame c m).2
    rw [hadd, ih]
    · simp
    · simp only [List.length_append, List.length_cons, List.length_nil]
      simp only [List.length_cons] at h
      push_cast at h ⊢
      omega

theorem foldlM_importStep_export (c : ConversationContext)
    (ms : List Message) :
    (ms.map (fun msg =>
        (⟨msg.role.value, msg.content, msg.metadata⟩ : ExportedMessage))).foldlM
        importStep c
      = Except.ok (ms.foldl ConversationContext.add_message c) := by
  induction ms generalizing c with
  | nil => rfl
  | cons msg ms ih =>
    rw [List.map_cons, List.foldlM_cons]
    have hstep : importStep c ⟨msg.role.value, msg.content, msg.metadata⟩
        = Except.ok (c.add_message msg) := by
      cases msg with
      | mk r co md => cases r <;> rfl
    rw [hstep, List.foldl_cons]
    exact ih (c.add_message msg)

theorem add_message_getLast (c : ConversationContext) (m : Message)
    (hm : m.role ≠ MessageRole.system)
    (hsys : ((c.messages.filter
        (fun x => x.role == MessageRole.system)).length : Int)
      ≤ c.max_history) :
    (c.add_message m).messages.getLast? = some m := by
  have hm' : (m.role == MessageRole.system) = false := by simpa using hm
  by_cases htrim : c.max_history < (c.messages.length : Int) + 1
  · rw [add_message_trim c m htrim]
    have hfil : (c.messages ++ [m]).filter
          (fun x => x.role == MessageRole.system)
        = c.messages.filter (fun x => x.role == MessageRole.system) := by
      rw [List.filter_append]
      simp [hm']
    have hoth : (c.messages ++ [m]).filter
          (fun x => !(x.role == MessageRole.system))
        = c.messages.filter (fun x => !(x.role == MessageRole.system)) ++ [m] := by
      rw [List.filter_append]
      simp [hm']
    rw [hfil, hoth]
    by_cases hkpos : 0 < c.max_history -
        ((c.messages.filter (fun x => x.role == MessageRole.system)).length : Int)
    · unfold pySliceFromNeg
      rw [if_pos hkpos]
      rw [List.drop_append_eq_append_drop]
      have hj : (c.messages.filter (fun x => !(x.role == MessageRole.system))
            ++ [m]).length -
            (c.max_history -
              ((c.messages.filter
                (fun x => x.role == MessageRole.system)).length : Int)).toNat
          ≤ (c.messages.filter
              (fun x => !(x.role == MessageRole.system))).length := by
        rw [List.length_append]
        simp only [List.length_cons, List.length_nil]
        omega
      rw [Nat.sub_eq_zero_of_le hj, List.drop_zero, ← List.append_assoc]
      exact List.getLast?_concat _
    · unfold pySliceFromNeg
      rw [if_neg hkpos, if_pos (by omega), ← List.append_assoc]
      exact List.getLast?_concat _
  · rw [add_message_no_trim c m (by omega)]
    exact List.getLast?_concat _

/-! ### Claim theorems -/

/-- C1, counterexample: with `max_history = 1` (which the claim allows,
`N ≥ 1`) and a pinned system prompt, a single `add_message(USER, "hi")`
leaves two messages — `other_messages[-(1 - 1):]` is `[-0:]`, which keeps
everything — so `len(messages) ≤ N` fails. -/
theorem history_bound_cex :
    ¬ ((((ConversationContext.set_system_prompt
            { messages := [], max_history := 1 } "s").add_message
          ⟨MessageRole.user, "hi", none⟩).messages.length : Int) ≤ 1) := by
  decide

/-- C1, amended: for sequences of `add_message` calls with USER/ASSISTANT
roles and `max_history = N`, the invariant `HistInv` is preserved: the list
stays within `N` whenever no system prompt is pinned and `N ≥ 1`, or a
system prompt is pinned and `N ≥ 2`; with a pinned prompt the first message
always has role SYSTEM. (The claim's bound fails for a pinned prompt with
`N = 1`, see the counterexample.) -/
theorem conversation_history_invariant (N : Int) (c0 : ConversationContext)
    (ms : List Message) (h0 : HistInv N c0)
    (hms : ∀ m ∈ ms, m.role ≠ MessageRole.system) :
    HistInv N (ms.foldl ConversationContext.add_message c0) := by
  induction ms generalizing c0 with
  | nil => exact h0
  | cons m ms ih =>
    rw [List.foldl_cons]
    exact ih (c0.add_message m)
      (histInv_add_message N c0 m (hms m (List.mem_cons_self m ms)) h0)
      (fun x hx => hms x (List.mem_cons_of_mem m hx))

/-- Witness for C1: a pinned context with `N = 3` keeps the invariant across
three USER/ASSISTANT turns. -/
theorem conversation_history_invariant_witness :
    HistInv 3
      (([⟨MessageRole.user, "a", none⟩, ⟨MessageRole.assistant, "b", none⟩,
         ⟨MessageRole.user, "c", none⟩] : List Message).foldl
        ConversationContext.add_message
        (ConversationContext.set_system_prompt
          { messages := [], max_history := 3 } "boot")) :=
  conversation_history_invariant 3
    (ConversationContext.set_system_prompt
      { messages := [], max_history := 3 } "boot")
    [⟨MessageRole.user, "a", none⟩, ⟨MessageRole.assistant, "b", none⟩,
     ⟨MessageRole.user, "c", none⟩]
    (by decide) (by decide)

/-- C3: after `set_system_prompt(p)` followed by any number of `add_message`
calls with USER/ASSISTANT roles, the system messages of the history are
exactly `[Message(SYSTEM, p)]` when `p` is non-empty and `[]` when `p` is
the empty string — in particular there is never more than one SYSTEM
message, and its content is the most recent prompt. -/
theorem system_pin_invariance (c : ConversationContext) (p : String)
    (ms : List Message) (hms : ∀ m ∈ ms, m.role ≠ MessageRole.system) :
    (ms.foldl ConversationContext.add_message
        (c.set_system_prompt p)).messages.filter
      (fun x => x.role == MessageRole.system)
      = if p = "" then [] else [⟨MessageRole.system, p, none⟩] := by
  rw [foldl_add_message_filter_system (c.set_system_prompt p) ms hms]
  exact set_system_prompt_filter_system c p

/-- Witness for C3: pinning "boot" and then adding two non-system turns
leaves exactly one SYSTEM message with content "boot". -/
theorem system_pin_invariance_witness :
    (([⟨MessageRole.user, "a", none⟩, ⟨MessageRole.assistant, "b", none⟩] :
        List Message).foldl ConversationContext.add_message
      (ConversationContext.set_system_prompt
        { messages := [⟨MessageRole.user, "old", none⟩], max_history := 50 }
        "boot")).messages.filter (fun x => x.role == MessageRole.system)
      = if "boot" = "" then [] else [⟨MessageRole.system, "boot", none⟩] :=
  system_pin_invariance
    { messages := [⟨MessageRole.user, "old", none⟩], max_history := 50 }
    "boot"
    [⟨MessageRole.user, "a", none⟩, ⟨MessageRole.assistant, "b", none⟩]
    (by decide)

/-- C2: on a full store (`K` items, distinct keys) adding a new distinct
path that parses successfully leaves exactly `K` items, and the entry
removed is the first-inserted among those with the smallest `last_accessed`
in the store as it stands at the moment of insertion (the new item
included, with `last_accessed = now`) — `firstMinBy` is exactly that
tie-break, realised by the stability of the ascending sort. -/
theorem eviction_correct (cm : ContextManager)
    (parse : String → Option ParsedDoc) (p : String) (doc : ParsedDoc)
    (now : Nat)
    (hfull : cm.context_items.length = cm.max_context_items)
    (hkeys : (cm.context_items.map Prod.fst).Nodup)
    (hnew : ∀ kv ∈ cm.context_items, kv.1 ≠ p)
    (hparse : parse p = some doc) :
    (cm.add_file parse p now).1 = true ∧
    (cm.add_file parse p now).2.context_items.length = cm.max_context_items ∧
    ∃ victim,
      firstMinBy (fun kv => kv.2.last_accessed)
          (cm.context_items ++ [(p, freshContextItem doc p now)])
        = some victim ∧
      (cm.add_file parse p now).2.context_items
        = (cm.context_items ++ [(p, freshContextItem doc p now)]).filter
            (fun kv => !(kv.1 == victim.1)) := by
  have hdict : dictInsert cm.context_items p (freshContextItem doc p now)
      = cm.context_items ++ [(p, freshContextItem doc p now)] := by
    unfold dictInsert
    rw [if_neg]
    intro hany
    obtain ⟨kv, hkv, hbeq⟩ := List.any_eq_true.mp hany
    exact hnew kv hkv (by simpa using hbeq)
  have hadd : cm.add_file parse p now
      = (true, ContextManager.manage_context_size
          { cm with
            context_items :=
              cm.context_items ++ [(p, freshContextItem doc p now)]
            active_files := setAdd cm.active_files p }) := by
    unfold ContextManager.add_file
    rw [hparse]
    dsimp only
    rw [hdict]
  cases hfm : firstMinBy (fun kv => kv.2.last_accessed)
      (cm.context_items ++ [(p, freshContextItem doc p now)]) with
  | none =>
    rw [firstMinBy_eq_none_iff] at hfm
    simp at hfm
  | some victim =>
    have hvmem : victim ∈ cm.context_items ++ [(p, freshContextItem doc p now)] :=
      firstMinBy_mem _ _ _ hfm
    have hnodup2 : ((cm.context_items
        ++ [(p, freshContextItem doc p now)]).map Prod.fst).Nodup := by
      rw [List.map_append, List.nodup_append]
      refine ⟨hkeys, by simp, ?_⟩
      intro a ha hb
      simp only [List.map_cons, List.map_nil, List.mem_singleton] at hb
      subst hb
      obtain ⟨kv, hkv, hfst⟩ := List.mem_map.mp ha
      exact hnew kv hkv hfst
    have hlen : (cm.context_items
        ++ [(p, freshContextItem doc p now)]).length
        = cm.max_context_items + 1 := by
      rw [List.length_append, hfull]
      rfl
    have hhead : (stableSortBy (fun kv => kv.2.last_accessed)
        (cm.context_items ++ [(p, freshContextItem doc p now)])).head?
        = some victim := by
      rw [stableSortBy_head?, hfm]
    have hmanage : (ContextManager.manage_context_size
        { cm with
          context_items := cm.context_items ++ [(p, freshContextItem doc p now)]
          active_files := setAdd cm.active_files p }).context_items
        = (cm.context_items ++ [(p, freshContextItem doc p now)]).filter
            (fun kv => !(kv.1 == victim.1)) := by
      unfold ContextManager.manage_context_size
      rw [if_neg (by simp only [hlen]; omega)]
      cases hs : stableSortBy (fun kv => kv.2.last_accessed)
          (cm.context_items ++ [(p, freshContextItem doc p now)]) with
      | nil =>
        rw [hs] at hhead
        simp at hhead
      | cons a rest =>
        rw [hs] at hhead
        simp only [List.head?_cons, Option.some.injEq] at hhead
        subst hhead
        simp only [hlen, Nat.add_sub_cancel_left, List.take_succ_cons,
          List.take_zero, List.map_cons, List.map_nil]
        apply List.filter_congr
        intro kv _
        cases h : kv.1 == a.1
        · simp [List.contains, List.elem, h]
        · simp [List.contains, List.elem, h]
    refine ⟨?_, ?_, ⟨victim, rfl, ?_⟩⟩
    · rw [hadd]
    · have hflen := filter_ne_key_length _ victim hnodup2 hvmem
      rw [hadd]
      dsimp only
      rw [hmanage]
      omega
    · rw [hadd]
      dsimp only
      exact hmanage

/-- Witness for C2: on a one-slot store holding `a.md` (last accessed at 1),
adding `b.md` at time 2 succeeds, keeps the store at one item, and evicts
the minimal-`last_accessed` entry. -/
theorem eviction_correct_witness :
    (cmW.add_file parseW "b.md" 2).1 = true ∧
    (cmW.add_file parseW "b.md" 2).2.context_items.length
      = cmW.max_context_items ∧
    ∃ victim,
      firstMinBy (fun kv => kv.2.last_accessed)
          (cmW.context_items ++ [("b.md", freshContextItem docW "b.md" 2)])
        = some victim ∧
      (cmW.add_file parseW "b.md" 2).2.context_items
        = (cmW.context_items ++ [("b.md", freshContextItem docW "b.md" 2)]).filter
            (fun kv => !(kv.1 == victim.1)) :=
  eviction_correct cmW parseW "b.md" docW 2
    (by decide) (by decide) (by decide) (by decide)

/-- C4, counterexample: on a registry with zero providers, `generate`
raises Python's built-in `ValueError` ("No default provider set"), not the
`ConfigurationError` declared in `src/config/exceptions.py` — the claim
names the wrong exception class. -/
theorem default_provider_valueerror_cex :
    (LLMManager.fresh.generate "hi" none true
        (fun _ _ => Except.error (PyExn.llmError "boom"))).1
      = Except.error (PyExn.valueError "No default provider set") ∧
    (PyExn.valueError "No default provider set").isConfigurationError
      = false := by
  exact ⟨rfl, rfl⟩

/-- C4, amended: `generate` on a registry with zero registered providers
raises `ValueError` ("No default provider set") and leaves the manager
unchanged; with a provider registered, `set_default_provider` on an
unregistered id raises `ValueError` and returns the manager unchanged, so
the previously set default survives. -/
theorem default_provider_fail_fast (content : String)
    (backend : LLMProvider → List Message → Except PyExn LLMResponse)
    (m0 m1 : LLMManager) (q : LLMProvider)
    (h0 : m0.llms = [] ∧ m0.default_provider = none)
    (hq : m1.llms.contains q = false) :
    m0.generate content none true backend
      = (Except.error (PyExn.valueError "No default provider set"), m0) ∧
    m1.set_default_provider q
      = (Except.error (PyExn.valueError
          ("Provider " ++ q.fstr ++ " not configured")), m1) := by
  constructor
  · unfold LLMManager.generate LLMManager.get_provider_id
    rw [h0.2]
    rfl
  · unfold LLMManager.set_default_provider
    have hq2 : ¬ (m1.llms.contains q = true) := by
      rw [hq]
      simp
    rw [if_neg hq2]

/-- Witness for C4: a fresh registry for the first part; a registry holding
only Claude (hence Claude as default) asked to default to Gemini for the
second. -/
theorem default_provider_fail_fast_witness :
    LLMManager.fresh.generate "hi" none true
        (fun _ _ => Except.error (PyExn.llmError "boom"))
      = (Except.error (PyExn.valueError "No default provider set"),
         LLMManager.fresh) ∧
    (LLMManager.fresh.add_provider LLMProvider.claude).set_default_provider
        LLMProvider.gemini
      = (Except.error (PyExn.valueError
          ("Provider " ++ LLMProvider.gemini.fstr ++ " not configured")),
         LLMManager.fresh.add_provider LLMProvider.claude) :=
  default_provider_fail_fast "hi"
    (fun _ _ => Except.error (PyExn.llmError "boom"))
    LLMManager.fresh (LLMManager.fresh.add_provider LLMProvider.claude)
    LLMProvider.gemini (by decide) (by decide)

/-- C5: when the resolved backend raises during `generate` with
`add_to_history = True`, the returned state is exactly the one after the
USER turn was appended — no ASSISTANT message is ever added — and that
appended USER message is still the last message of the history. The
`hsys` hypothesis (system messages within the bound, true of every state
the documented API produces, where at most one SYSTEM message exists and
`max_history ≥ 1`) rules out the degenerate negative-slice path that could
drop the fresh USER turn. -/
theorem generate_error_no_assistant (m : LLMManager) (content : String)
    (pv : Option LLMProvider) (p : LLMProvider) (e : PyExn)
    (backend : LLMProvider → List Message → Except PyExn LLMResponse)
    (hres : m.get_provider_id pv = Except.ok p)
    (hsys : ((m.conversation_context.messages.filter
        (fun x => x.role == MessageRole.system)).length : Int)
      ≤ m.conversation_context.max_history)
    (hfail : backend p
        (m.conversation_context.add_message
          ⟨MessageRole.user, content, none⟩).messages = Except.error e) :
    m.generate content pv true backend
      = (Except.error e,
         { m with conversation_context :=
             (m.conversation_context.add_message
               ⟨MessageRole.user, content, none⟩) }) ∧
    (m.conversation_context.add_message
        ⟨MessageRole.user, content, none⟩).messages.getLast?
      = some ⟨MessageRole.user, content, none⟩ := by
  constructor
  · unfold LLMManager.generate
    rw [hres]
    simp only [eq_self_iff_true, if_true, ConversationContext.get_messages]
    rw [hfail]
  · exact add_message_getLast m.conversation_context
      ⟨MessageRole.user, content, none⟩ (by simp) hsys

/-- Witness for C5: a Claude-only manager with one prior user turn; the
backend raises a rate-limit-style error; the state keeps the dangling USER
message and gains no ASSISTANT reply. -/
theorem generate_error_no_assistant_witness :
    (LLMManager.generate
        { llms := [LLMProvider.claude],
          default_provider := some LLMProvider.claude,
          conversation_context := { messages := [], max_history := 50 } }
        "hello" none true (fun _ _ => Except.error (PyExn.llmError "rate")))
      = (Except.error (PyExn.llmError "rate"),
         { llms := [LLMProvider.claude],
           default_provider := some LLMProvider.claude,
           conversation_context :=
             (({ messages := [], max_history := 50 } :
                 ConversationContext).add_message
               ⟨MessageRole.user, "hello", none⟩) }) ∧
    (({ messages := [], max_history := 50 } :
        ConversationContext).add_message
        ⟨MessageRole.user, "hello", none⟩).messages.getLast?
      = some ⟨MessageRole.user, "hello", none⟩ :=
  generate_error_no_assistant
    { llms := [LLMProvider.claude],
      default_provider := some LLMProvider.claude,
      conversation_context := { messages := [], max_history := 50 } }
    "hello" none LLMProvider.claude (PyExn.llmError "rate")
    (fun _ _ => Except.error (PyExn.llmError "rate"))
    rfl (by decide) rfl

/-- C6: `get_context_for_ai` bumps every present item — same keys in the
same dict order, `access_count + 1`, `last_accessed = now`; on an empty
store it returns the empty string and the unchanged store; on a non-empty
store the digest renders the items in an order that is a permutation of the
store sorted non-increasingly by the pre-call `last_accessed` values (ties
in original dict order, by stability); and each item's key-point section
holds at most 5 bullet lines (7 lines in all). -/
theorem get_context_for_ai_correct (cm : ContextManager) (now : Nat) :
    ((cm.get_context_for_ai now).2.context_items
      = cm.context_items.map (fun kv =>
          (kv.1, { kv.2 with last_accessed := now, access_count := kv.2.access_count + 1 })))
    ∧ (cm.context_items = [] → cm.get_context_for_ai now = ("", cm))
    ∧ (cm.context_items ≠ [] → ∃ order : List (String × ContextItem),
        order.Perm cm.context_items ∧
        order.Pairwise (fun a b => b.2.last_accessed ≤ a.2.last_accessed) ∧
        (cm.get_context_for_ai now).1
          = renderDigest (order.map (fun kv => kv.2)))
    ∧ (∀ item : ContextItem, (keyPointsSection item).length ≤ 7) := by
  refine ⟨?_, ?_, ?_, ?_⟩
  · unfold ContextManager.get_context_for_ai
    by_cases h : cm.context_items.isEmpty
    · rw [if_pos h]
      rw [List.isEmpty_iff] at h
      rw [h]
      rfl
    · rw [if_neg h]
  · intro h
    unfold ContextManager.get_context_for_ai
    rw [if_pos (List.isEmpty_iff.mpr h)]
  · intro h
    refine ⟨stableSortDescBy (fun kv => kv.2.last_accessed) cm.context_items,
      stableSortDescBy_perm _ _, stableSortDescBy_pairwise _ _, ?_⟩
    unfold ContextManager.get_context_for_ai
    rw [if_neg (by simpa [List.isEmpty_iff] using h)]
  · intro item
    unfold keyPointsSection
    by_cases h : item.key_points.isEmpty
    · simp [h]
    · rw [if_neg h]
      simp only [List.length_cons, List.length_append, List.length_map,
        List.length_take, List.length_nil]
      omega

/-- Witness for C6: on an empty store at time 3, the call returns the empty
digest and the store unchanged. -/
theorem get_context_for_ai_correct_witness :
    ContextManager.get_context_for_ai
        { max_context_items := 10, context_items := [], active_files := [] } 3
      = ("", { max_context_items := 10, context_items := [],
               active_files := [] }) :=
  (get_context_for_ai_correct
    { max_context_items := 10, context_items := [], active_files := [] }
    3).2.1 rfl

/-- C7: with `max_history = 3` and no system prompt, adding USER "a",
ASSISTANT "b", USER "c", ASSISTANT "d" in order leaves exactly
["b", "c", "d"] with roles [ASSISTANT, USER, ASSISTANT]. -/
theorem truncation_scenario :
    (([⟨MessageRole.user, "a", none⟩, ⟨MessageRole.assistant, "b", none⟩,
       ⟨MessageRole.user, "c", none⟩, ⟨MessageRole.assistant, "d", none⟩] :
        List Message).foldl ConversationContext.add_message
      { messages := [], max_history := 3 }).messages.map
        (fun m => (m.role, m.content))
      = [(MessageRole.assistant, "b"), (MessageRole.user, "c"),
         (MessageRole.assistant, "d")] := by
  decide

set_option maxRecDepth 4000 in
/-- C8, counterexample: a conversation of 51 USER messages (reachable after
`set_max_history(51)`) exports 51 entries, but importing into a fresh
context (default `max_history = 50`) re-adds them through `add_message`,
which truncates to 50 — the round trip is not the identity. -/
theorem export_import_truncation_cex :
    (LLMManager.fresh.import_conversation
        bigManager.export_conversation).toOption.map
        (fun m2 => m2.conversation_context.messages.map
          (fun x => (x.role.value, x.content)))
      ≠ some (bigManager.export_conversation.map
          (fun e => (e.role, e.content))) := by
  decide

/-- C8, amended: the export/import round trip restores the exact ordered
`(role, content)` sequence whenever the exported conversation has at most
50 messages (the fresh context's `max_history`); beyond that the import
truncates. -/
theorem export_import_roundtrip (m : LLMManager)
    (hlen : ((m.conversation_context.messages.length : Int)) ≤ 50) :
    ∃ m2,
      LLMManager.fresh.import_conversation m.export_conversation
        = Except.ok m2 ∧
      m2.conversation_context.messages.map
          (fun x => (x.role.value, x.content))
        = m.export_conversation.map (fun e => (e.role, e.content)) := by
  have hc0 : ({ LLMManager.fresh.conversation_context with messages := [] }
      : ConversationContext)
      = { messages := [], max_history := 50, system_prompt := none } := rfl
  have hfold := foldl_add_message_no_trim
    ({ messages := [], max_history := 50, system_prompt := none }
      : ConversationContext)
    m.conversation_context.messages (by simpa using hlen)
  unfold LLMManager.import_conversation LLMManager.export_conversation
    ConversationContext.get_messages
  rw [hc0, foldlM_importStep_export, hfold]
  refine ⟨_, rfl, ?_⟩
  simp only [List.nil_append, List.map_map]
  rfl

/-- Witness for C8 (amended): a two-turn conversation round-trips exactly. -/
theorem export_import_roundtrip_witness :
    ∃ m2,
      LLMManager.fresh.import_conversation
          (LLMManager.export_conversation
            { llms := [], default_provider := none,
              conversation_context :=
                { messages := [⟨MessageRole.user, "hi", none⟩,
                               ⟨MessageRole.assistant, "yo", none⟩],
                  max_history := 50 } })
        = Except.ok m2 ∧
      m2.conversation_context.messages.map
          (fun x => (x.role.value, x.content))
        = (LLMManager.export_conversation
            { llms := [], default_provider := none,
              conversation_context :=
                { messages := [⟨MessageRole.user, "hi", none⟩,
                               ⟨MessageRole.assistant, "yo", none⟩],
                  max_history := 50 } }).map
            (fun e => (e.role, e.content)) :=
  export_import_roundtrip
    { llms := [], default_provider := none,
      conversation_context :=
        { messages := [⟨MessageRole.user, "hi", none⟩,
                       ⟨MessageRole.assistant, "yo", none⟩],
          max_history := 50 } }
    (by decide)

/-- C9: `set_max_history(n)` changes only the `max_history` field — the
stored message list, the system prompt, the provider table and the default
provider are all untouched, even when the list is longer than `n`; any
truncation can only happen inside a later `add_message`. -/
theorem set_max_history_frame (m : LLMManager) (n : Int) :
    (m.set_max_history n).conversation_context.messages
      = m.conversation_context.messages ∧
    (m.set_max_history n).conversation_context.max_history = n ∧
    (m.set_max_history n).conversation_context.system_prompt
      = m.conversation_context.system_prompt ∧
    (m.set_max_history n).llms = m.llms ∧
    (m.set_max_history n).default_provider = m.default_provider :=
  ⟨rfl, rfl, rfl, rfl, rfl⟩

/-- C10: `get_context_stats` on an empty store returns zero totals with
`most_accessed` and `recently_added` both absent; in the embedding it is a
pure function of the store, mirroring that the source mutates nothing. -/
theorem stats_empty_store (cm : ContextManager)
    (parse : String → Option ParsedDoc) (h : cm.context_items = []) :
    cm.get_context_stats parse
      = { total_files := 0, total_words := 0, total_sections := 0,
          most_accessed := none, recently_added := none } := by
  unfold ContextManager.get_context_stats
  rw [h]

/-- Witness for C10: the empty store with a parse oracle that fails on
every path. -/
theorem stats_empty_store_witness :
    ContextManager.get_context_stats
        { max_context_items := 10, context_items := [], active_files := [] }
        (fun _ => none)
      = { total_files := 0, total_words := 0, total_sections := 0,
          most_accessed := none, recently_added := none } :=
  stats_empty_store
    { max_context_items := 10, context_items := [], active_files := [] }
    (fun _ => none) rfl
